import Mathlib

/-!
Shallow embedding of `src/ignite/handlers/param_scheduler.py`.

The Python module defines a hierarchy of parameter schedulers:

* `ParamScheduler` — base class: `__call__(engine)` computes a value via the
  virtual `get_param`, writes it into every parameter group of the optimizer,
  optionally appends a snapshot to `engine.state.param_history`, and
  increments `event_index`.
* `CyclicalScheduler` — adds cycle-boundary logic before delegating to the
  base `__call__`.
* `LinearScheduler`, `CosineAnnealingScheduler`, `CosineScheduler` — concrete
  waveforms, each overriding `get_param`.
* `ConcatScheduler` — holds a list of `(scheduler_cls, scheduler_kwds,
  event_duration)` entries and switches the active sub-scheduler when a
  countdown expires.

Embedding conventions:
* Python dicts (parameter groups, the history mapping) are association
  lists, so that all states have decidable equality and runs evaluate by
  `decide`.
* The mutable objects (`self`, `engine.state`, the optimizer) are passed and
  returned explicitly.  The optimizer is embedded by value as its
  `param_groups` list; no claim below observes aliasing between two live
  references to the same optimizer.
* `from __future__ import division` makes `/` true division, so
  `event_index / cycle_size` is division in a field (`ℚ` or `ℝ`), never
  integer division.
* The virtual method `get_param` is a function argument of the `__call__`
  embeddings; each concrete subclass supplies its own.
-/

/-- A Python parameter group: a mutable mapping from option name to value,
embedded as an association list. -/
abbrev ParamGroup (α : Type) := List (String × α)

/-- Dict assignment `pg[k] = v`: overwrite the binding of `k` if present,
otherwise append a new binding. -/
def ParamGroup.set (pg : ParamGroup α) (k : String) (v : α) : ParamGroup α :=
  if pg.any (fun p => p.1 == k) then
    pg.map (fun p => if p.1 == k then (p.1, v) else p)
  else
    pg ++ [(k, v)]

/-- Dict lookup `pg[k]`, `none` when the key is absent (Python would raise
`KeyError`; every lookup the code performs follows a write of the same key). -/
def ParamGroup.get (pg : ParamGroup α) (k : String) : Option α :=
  (pg.find? (fun p => p.1 == k)).map (fun p => p.2)

/-- The history mapping `engine.state.param_history`: param name ↦ list of
snapshots, each snapshot one value per parameter group. -/
abbrev History (α : Type) := List (String × List (List α))

/-- Python `dict.setdefault(k, [])`: insert an empty entry when `k` is
absent, otherwise leave the dict unchanged. -/
def History.setdefault (h : History α) (k : String) : History α :=
  if h.any (fun p => p.1 == k) then h else h ++ [(k, [])]

/-- Python `h[k].append(snap)` (assuming `k` is present). -/
def History.appendAt (h : History α) (k : String) (snap : List α) : History α :=
  h.map (fun p => if p.1 == k then (p.1, p.2 ++ [snap]) else p)

/-- Lookup of the snapshot list recorded under `k`, `[]` when absent. -/
def History.get (h : History α) (k : String) : List (List α) :=
  match h.find? (fun p => p.1 == k) with
  | some p => p.2
  | none => []

/-- `engine.state` as far as the schedulers touch it: the lazily created
`param_history` attribute (`none` before the first `setattr`). -/
structure EngineState (α : Type) where
  param_history : Option (History α)
deriving DecidableEq, Repr

/-- Base scheduler state (`ParamScheduler.__init__`): the optimizer is
embedded by value as its `param_groups` list. -/
structure ParamScheduler (α : Type) where
  optimizer : List (ParamGroup α)
  param_name : String
  save_history : Bool
  event_index : ℕ
deriving DecidableEq, Repr

/-- `ParamScheduler.__call__(engine)` with the already-computed `value` of
the virtual `get_param()` call: write `value` into every parameter group,
optionally append a snapshot of the (just written) group values to the
history, and increment `event_index`. -/
def ParamScheduler.call (s : ParamScheduler α) (value : α) (eng : EngineState α) :
    ParamScheduler α × EngineState α :=
  let groups := s.optimizer.map (fun pg => ParamGroup.set pg s.param_name value)
  let eng' :=
    if s.save_history then
      let hist := match eng.param_history with
        | none => ([] : History α)
        | some h => h
      let hist := History.setdefault hist s.param_name
      let values := groups.map (fun pg => (ParamGroup.get pg s.param_name).getD value)
      EngineState.mk (some (History.appendAt hist s.param_name values))
    else eng
  ({ s with optimizer := groups, event_index := s.event_index + 1 }, eng')

/-- Cyclical scheduler state (`CyclicalScheduler.__init__`): base fields plus
the cycle parameters; `cycle` counts completed cycles. -/
structure CyclicalScheduler (α : Type) extends ParamScheduler α where
  start_value : α
  end_value : α
  cycle_size : ℕ
  cycle_mult : ℕ
  cycle : ℕ
deriving DecidableEq, Repr

/-- The cycle-boundary prologue of `CyclicalScheduler.__call__`: if
`event_index != 0 and event_index % cycle_size == 0`, reset `event_index`,
grow `cycle_size` by `cycle_mult` and bump `cycle`. -/
def CyclicalScheduler.boundaryAdjust (s : CyclicalScheduler α) : CyclicalScheduler α :=
  if s.event_index ≠ 0 ∧ s.event_index % s.cycle_size = 0 then
    { s with event_index := 0, cycle_size := s.cycle_size * s.cycle_mult,
             cycle := s.cycle + 1 }
  else s

/-- `CyclicalScheduler.__call__(engine)`: boundary prologue, then the base
`__call__` with the value of the subclass's `get_param` on the adjusted
state. -/
def CyclicalScheduler.call (gp : CyclicalScheduler α → α) (s : CyclicalScheduler α)
    (eng : EngineState α) : CyclicalScheduler α × EngineState α :=
  let s' := s.boundaryAdjust
  let (base, eng') := s'.toParamScheduler.call (gp s') eng
  ({ s' with toParamScheduler := base }, eng')

/-- The local `cycle_progress = self.event_index / self.cycle_size` computed
by every concrete `get_param` (true division, per
`from __future__ import division`). -/
def cycleProgress [DivisionRing α] (s : CyclicalScheduler α) : α :=
  (s.event_index : α) / (s.cycle_size : α)

/-- `LinearScheduler.get_param`. -/
def LinearScheduler.get_param [LinearOrderedField α] (s : CyclicalScheduler α) : α :=
  s.end_value + (s.start_value - s.end_value) * |cycleProgress s - 1/2| * 2

/-- `CosineAnnealingScheduler.get_param` (`np.cos`, `np.pi` are embedded as
the real cosine and π). -/
noncomputable def CosineAnnealingScheduler.get_param (s : CyclicalScheduler ℝ) : ℝ :=
  s.start_value + ((s.end_value - s.start_value) / 2) * (1 - Real.cos (Real.pi * cycleProgress s))

/-- `CosineScheduler.get_param`. -/
noncomputable def CosineScheduler.get_param (s : CyclicalScheduler ℝ) : ℝ :=
  s.start_value + ((s.end_value - s.start_value) / 2) * (1 - Real.cos (2 * Real.pi * cycleProgress s))

/-- Iterated `__call__`: the state and engine after `n` invocations. -/
def CyclicalScheduler.run (gp : CyclicalScheduler α → α) (s : CyclicalScheduler α)
    (eng : EngineState α) : ℕ → CyclicalScheduler α × EngineState α
  | 0 => (s, eng)
  | n + 1 =>
    let (s', eng') := CyclicalScheduler.run gp s eng n
    CyclicalScheduler.call gp s' eng'

/-! ### The end-to-end Linear example (claim C1) -/

/-- The example configuration: one parameter group `{"lr": 0.1}`, a
`LinearScheduler` with `start_value=0.1`, `end_value=0.01`, `cycle_size=10`,
`cycle_mult=1`. -/
def linearLrExample : CyclicalScheduler ℚ :=
  { optimizer := [[("lr", 1/10)]], param_name := "lr", save_history := false,
    event_index := 0, start_value := 1/10, end_value := 1/100,
    cycle_size := 10, cycle_mult := 1, cycle := 0 }

/-- The `"lr"` option of the example's single parameter group after `n`
invocations. -/
def linearLrAfter (n : ℕ) : Option ℚ :=
  ((CyclicalScheduler.run LinearScheduler.get_param linearLrExample ⟨none⟩ n).1.optimizer.head?).bind
    (fun pg => ParamGroup.get pg "lr")

/-- Claim C1, counterexample: after 5 invocations the `"lr"` option is
`0.028`, not `0.01` (likewise 10 and 15 invocations give `0.082` and `0.028`,
not `0.1` and `0.01`).  The `k`-th invocation evaluates the waveform at
`event_index = k - 1`, so the claimed values appear one invocation later. -/
theorem linearLrExample_claimed_counts_fail :
    linearLrAfter 5 = some (7/250) ∧ (7/250 : ℚ) ≠ 1/100 ∧
    linearLrAfter 10 = some (41/500) ∧ (41/500 : ℚ) ≠ 1/10 ∧
    linearLrAfter 15 = some (7/250) := by
  norm_num [linearLrAfter, linearLrExample, CyclicalScheduler.run, CyclicalScheduler.call,
    CyclicalScheduler.boundaryAdjust, ParamScheduler.call, LinearScheduler.get_param,
    cycleProgress, ParamGroup.set, ParamGroup.get, abs_of_nonneg, abs_of_nonpos]

/-- Claim C1, amended: the claimed `lr` values `0.01`, `0.1`, `0.01` are
reached after 6, 11 and 16 invocations respectively (the invocation that
evaluates the waveform at `event_index` 5, 0-after-wrap, and 5 again). -/
theorem linearLrExample_counts :
    linearLrAfter 6 = some (1/100) ∧
    linearLrAfter 11 = some (1/10) ∧
    linearLrAfter 16 = some (1/100) := by
  norm_num [linearLrAfter, linearLrExample, CyclicalScheduler.run, CyclicalScheduler.call,
    CyclicalScheduler.boundaryAdjust, ParamScheduler.call, LinearScheduler.get_param,
    cycleProgress, ParamGroup.set, ParamGroup.get, abs_of_nonneg, abs_of_nonpos]

/-! ### Dictionary lemmas and the base apply contract (claim C5) -/

/-- After dict assignment `pg[k] = v`, lookup of `k` gives `v`. -/
theorem ParamGroup.get_set (pg : ParamGroup α) (k : String) (v : α) :
    ParamGroup.get (ParamGroup.set pg k v) k = some v := by
  unfold ParamGroup.set ParamGroup.get
  by_cases ha : pg.any (fun p => p.1 == k)
  · rw [if_pos ha, List.find?_map]
    have hcomp : ((fun p : String × α => p.1 == k) ∘ fun p : String × α => if p.1 == k then (p.1, v) else p)
        = fun p : String × α => p.1 == k := by
      funext p
      by_cases h : p.1 = k <;> simp [h]
    rw [hcomp]
    have hsome : (pg.find? (fun p => p.1 == k)).isSome := by
      rw [List.find?_isSome]
      simpa using List.any_eq_true.mp ha
    obtain ⟨p0, hp0⟩ := Option.isSome_iff_exists.mp hsome
    have hq : p0.1 = k := by simpa using List.find?_some hp0
    rw [hp0]
    simp [hq]
  · rw [if_neg ha, List.find?_append]
    have hnone : pg.find? (fun p => p.1 == k) = none := by
      rw [List.find?_eq_none]
      intro x hx
      exact fun hxk => ha (List.any_eq_true.mpr ⟨x, hx, hxk⟩)
    simp [hnone]

/-- The history update performed by `ParamScheduler.__call__` appends exactly
one snapshot under the written key. -/
theorem History.get_append_self (h : History α) (k : String) (snap : List α) :
    History.get (History.appendAt (History.setdefault h k) k snap) k
      = History.get h k ++ [snap] := by
  unfold History.setdefault History.appendAt History.get
  have hcomp : ((fun p : String × List (List α) => p.1 == k) ∘
      fun p : String × List (List α) => if p.1 == k then (p.1, p.2 ++ [snap]) else p)
      = fun p : String × List (List α) => p.1 == k := by
    funext p
    by_cases hp : p.1 = k <;> simp [hp]
  by_cases ha : h.any (fun p => p.1 == k)
  · rw [if_pos ha, List.find?_map, hcomp]
    have hsome : (h.find? (fun p => p.1 == k)).isSome := by
      rw [List.find?_isSome]
      simpa using List.any_eq_true.mp ha
    obtain ⟨p0, hp0⟩ := Option.isSome_iff_exists.mp hsome
    have hq : p0.1 = k := by simpa using List.find?_some hp0
    rw [hp0]
    simp [hq]
  · rw [if_neg ha, List.find?_map, hcomp, List.find?_append]
    have hnone : h.find? (fun p => p.1 == k) = none := by
      rw [List.find?_eq_none]
      intro x hx
      exact fun hxk => ha (List.any_eq_true.mpr ⟨x, hx, hxk⟩)
    simp [hnone]

/-- The history update leaves every other key's snapshot list unchanged. -/
theorem History.get_append_other (h : History α) (k k' : String) (snap : List α)
    (hne : k' ≠ k) :
    History.get (History.appendAt (History.setdefault h k) k snap) k'
      = History.get h k' := by
  unfold History.setdefault History.appendAt History.get
  have hcomp : ((fun p : String × List (List α) => p.1 == k') ∘
      fun p : String × List (List α) => if p.1 == k then (p.1, p.2 ++ [snap]) else p)
      = fun p : String × List (List α) => p.1 == k' := by
    funext p
    by_cases hp : p.1 = k <;> simp [hp]
  by_cases ha : h.any (fun p => p.1 == k)
  · rw [if_pos ha, List.find?_map, hcomp]
    cases hfind : h.find? (fun p => p.1 == k') with
    | none => simp
    | some p0 =>
      have hq : p0.1 = k' := by simpa using List.find?_some hfind
      have hp0k : ¬ p0.1 = k := by rw [hq]; exact hne
      simp [hp0k]
  · rw [if_neg ha, List.find?_map, hcomp, List.find?_append]
    have hk : ((k : String) == k') = false := beq_eq_false_iff_ne.mpr (Ne.symm hne)
    cases hfind : h.find? (fun p => p.1 == k') with
    | none => simp [hfind, hk]
    | some p0 =>
      have hq : p0.1 = k' := by simpa using List.find?_some hfind
      have hp0k : ¬ p0.1 = k := by rw [hq]; exact hne
      simp [hfind, hk, hp0k]

/-- The snapshot list recorded for `k`, reading a missing `param_history`
attribute as empty. -/
def EngineState.historyAt (eng : EngineState α) (k : String) : List (List α) :=
  History.get (eng.param_history.getD []) k

/-- Reading the written option back from every freshly written group yields
one copy of the value per group. -/
theorem map_get_set_getD (l : List (ParamGroup α)) (k : String) (v : α) :
    (l.map (fun pg => ParamGroup.set pg k v)).map
        (fun pg => (ParamGroup.get pg k).getD v)
      = List.replicate l.length v := by
  induction l with
  | nil => rfl
  | cons hd tl ih => simp [ParamGroup.get_set, ih, List.replicate]

/-- Claim C5: one `ParamScheduler.__call__` writes the computed value into the
named option of every parameter group (doing nothing when the target is
empty), appends exactly one snapshot (one value per group, all equal to the
value) under `param_name` if and only if `save_history` is set, and
increments `event_index` by exactly 1. -/
theorem paramScheduler_call_spec (s : ParamScheduler α) (value : α) (eng : EngineState α) :
    (ParamScheduler.call s value eng).1.optimizer
        = s.optimizer.map (fun pg => ParamGroup.set pg s.param_name value) ∧
    (∀ pg ∈ (ParamScheduler.call s value eng).1.optimizer,
        ParamGroup.get pg s.param_name = some value) ∧
    (s.optimizer = [] → (ParamScheduler.call s value eng).1.optimizer = []) ∧
    (ParamScheduler.call s value eng).1.event_index = s.event_index + 1 ∧
    (ParamScheduler.call s value eng).1.param_name = s.param_name ∧
    (ParamScheduler.call s value eng).1.save_history = s.save_history ∧
    (s.save_history = true →
        EngineState.historyAt (ParamScheduler.call s value eng).2 s.param_name
          = EngineState.historyAt eng s.param_name
              ++ [List.replicate s.optimizer.length value] ∧
        ∀ k, k ≠ s.param_name →
          EngineState.historyAt (ParamScheduler.call s value eng).2 k
            = EngineState.historyAt eng k) ∧
    (s.save_history = false → (ParamScheduler.call s value eng).2 = eng) := by
  refine ⟨rfl, ?_, ?_, rfl, rfl, rfl, ?_, ?_⟩
  · intro pg hmem
    simp only [ParamScheduler.call, List.mem_map] at hmem
    obtain ⟨pg0, _, rfl⟩ := hmem
    exact ParamGroup.get_set pg0 s.param_name value
  · intro hempty
    simp [ParamScheduler.call, hempty]
  · intro hsave
    have hbase : (eng.param_history.getD [] : History α)
        = match eng.param_history with
          | none => ([] : History α)
          | some h => h := by
      cases eng.param_history <;> rfl
    constructor
    · simp only [ParamScheduler.call, hsave, if_true, EngineState.historyAt,
        Option.getD_some, ← hbase, map_get_set_getD]
      exact History.get_append_self _ _ _
    · intro k hk
      simp only [ParamScheduler.call, hsave, if_true, EngineState.historyAt,
        Option.getD_some, ← hbase]
      exact History.get_append_other _ _ _ _ hk
  · intro hsave
    simp [ParamScheduler.call, hsave]

/-- Claim C5, witness: a concrete invocation with history enabled. -/
theorem paramScheduler_call_spec_witness :
    (ParamScheduler.call (ParamScheduler.mk [[("lr", (1:ℚ)/10)]] "lr" true 0) (1/2) ⟨none⟩).1.event_index = 1 ∧
    EngineState.historyAt
      (ParamScheduler.call (ParamScheduler.mk [[("lr", (1:ℚ)/10)]] "lr" true 0) (1/2) ⟨none⟩).2 "lr"
      = [[1/2]] := by
  have h := paramScheduler_call_spec (ParamScheduler.mk [[("lr", (1:ℚ)/10)]] "lr" true 0) (1/2) ⟨none⟩
  refine ⟨h.2.2.2.1, ?_⟩
  have h2 := (h.2.2.2.2.2.2.1 rfl).1
  simpa [EngineState.historyAt, History.get] using h2

/-! ### Cycle-counter invariants (claims C2, C6) -/

/-- One cyclical invocation: the resulting scheduler state is the
boundary-adjusted state with groups written and index incremented. -/
theorem CyclicalScheduler.call_fst (gp : CyclicalScheduler α → α) (s : CyclicalScheduler α)
    (eng : EngineState α) :
    (CyclicalScheduler.call gp s eng).1
      = { s.boundaryAdjust with
          optimizer := s.boundaryAdjust.optimizer.map
            (fun pg => ParamGroup.set pg s.boundaryAdjust.param_name (gp s.boundaryAdjust)),
          event_index := s.boundaryAdjust.event_index + 1 } := rfl

/-- From a state with `event_index ≤ cycle_size`, `0 < cycle_size` and
`1 ≤ cycle_mult`, the boundary prologue leaves `event_index` strictly below
the (possibly grown) positive `cycle_size` and keeps `cycle_mult`. -/
theorem CyclicalScheduler.boundaryAdjust_facts (s : CyclicalScheduler α)
    (hcs : 0 < s.cycle_size) (hei : s.event_index ≤ s.cycle_size) (hmult : 1 ≤ s.cycle_mult) :
    s.boundaryAdjust.event_index < s.boundaryAdjust.cycle_size ∧
    0 < s.boundaryAdjust.cycle_size ∧
    s.boundaryAdjust.cycle_mult = s.cycle_mult := by
  unfold CyclicalScheduler.boundaryAdjust
  by_cases hb : s.event_index ≠ 0 ∧ s.event_index % s.cycle_size = 0
  · rw [if_pos hb]
    have hmpos : 0 < s.cycle_mult := hmult
    exact ⟨Nat.mul_pos hcs hmpos, Nat.mul_pos hcs hmpos, rfl⟩
  · rw [if_neg hb]
    push_neg at hb
    rcases Nat.lt_or_ge s.event_index s.cycle_size with hlt | hge
    · exact ⟨hlt, hcs, rfl⟩
    · have heq : s.event_index = s.cycle_size := le_antisymm hei hge
      have hne : s.event_index ≠ 0 := by omega
      have : s.event_index % s.cycle_size = 0 := by
        rw [heq, Nat.mod_self]
      exact absurd this (hb hne)

/-- Claim C2, amended: after a completed apply from a reachable state the
invariant is `0 < event_index ≤ cycle_size` (not `event_index < cycle_size`),
and it is self-sustaining; whenever the waveform is evaluated — i.e. on the
boundary-adjusted state — `event_index < cycle_size` holds, so
`cycle_progress = event_index / cycle_size` lies in `[0, 1)`. -/
theorem cyclicalScheduler_index_bounds [LinearOrderedField α] (gp : CyclicalScheduler α → α)
    (s : CyclicalScheduler α) (eng : EngineState α)
    (hcs : 0 < s.cycle_size) (hei : s.event_index ≤ s.cycle_size) (hmult : 1 ≤ s.cycle_mult) :
    (0 < (CyclicalScheduler.call gp s eng).1.event_index ∧
      (CyclicalScheduler.call gp s eng).1.event_index
        ≤ (CyclicalScheduler.call gp s eng).1.cycle_size ∧
      0 < (CyclicalScheduler.call gp s eng).1.cycle_size ∧
      1 ≤ (CyclicalScheduler.call gp s eng).1.cycle_mult) ∧
    s.boundaryAdjust.event_index < s.boundaryAdjust.cycle_size ∧
    (0:α) ≤ cycleProgress s.boundaryAdjust ∧ cycleProgress s.boundaryAdjust < 1 := by
  obtain ⟨hlt, hpos, hm⟩ := s.boundaryAdjust_facts hcs hei hmult
  have hprog0 : (0:α) ≤ cycleProgress s.boundaryAdjust :=
    div_nonneg (Nat.cast_nonneg _) (Nat.cast_nonneg _)
  have hprog1 : cycleProgress s.boundaryAdjust < 1 := by
    rw [cycleProgress, div_lt_one (by exact_mod_cast hpos)]
    exact_mod_cast hlt
  rw [CyclicalScheduler.call_fst]
  exact ⟨⟨Nat.succ_pos _, Nat.succ_le_of_lt hlt, hpos, hm ▸ hmult⟩, hlt, hprog0, hprog1⟩

/-- Claim C2, amended: after a completed apply from a reachable state the
invariant is `0 < event_index ≤ cycle_size` (not `event_index < cycle_size`),
and it is self-sustaining; whenever the waveform is evaluated — i.e. on the
boundary-adjusted state — `event_index < cycle_size` holds, so
`cycle_progress = event_index / cycle_size` lies in `[0, 1)`. -/
theorem cyclicalScheduler_index_bounds_witness :
    0 < (CyclicalScheduler.call LinearScheduler.get_param linearLrExample ⟨none⟩).1.event_index ∧
    (0:ℚ) ≤ cycleProgress linearLrExample.boundaryAdjust ∧
    cycleProgress linearLrExample.boundaryAdjust < 1 := by
  have h := cyclicalScheduler_index_bounds LinearScheduler.get_param linearLrExample ⟨none⟩
    (by norm_num [linearLrExample]) (by norm_num [linearLrExample]) (by norm_num [linearLrExample])
  exact ⟨h.1.1, h.2.2.1, h.2.2.2⟩

/-- A cycle of size 1 with `cycle_mult = 1`. -/
def unitCycleExample : CyclicalScheduler ℚ :=
  { optimizer := [[("lr", 1)]], param_name := "lr", save_history := false,
    event_index := 0, start_value := 1, end_value := 0,
    cycle_size := 1, cycle_mult := 1, cycle := 0 }

/-- Claim C2, counterexample: from a fresh scheduler with `cycle_size = 1`
(which satisfies `0 ≤ event_index < cycle_size`), one completed apply leaves
`event_index = 1 = cycle_size`, violating `event_index < cycle_size`; the
reset happens only at the start of the next invocation. -/
theorem cyclicalScheduler_strict_invariant_fails :
    unitCycleExample.event_index < unitCycleExample.cycle_size ∧
    0 < unitCycleExample.cycle_size ∧ 1 ≤ unitCycleExample.cycle_mult ∧
    ¬ ((CyclicalScheduler.call LinearScheduler.get_param unitCycleExample ⟨none⟩).1.event_index
        < (CyclicalScheduler.call LinearScheduler.get_param unitCycleExample ⟨none⟩).1.cycle_size) := by
  norm_num [unitCycleExample, CyclicalScheduler.call, CyclicalScheduler.boundaryAdjust,
    ParamScheduler.call]

/-- A fresh scheduler with `cycle_size = 2` and `cycle_mult = 2`. -/
def doublingExample : CyclicalScheduler ℚ :=
  { optimizer := [[("lr", 1)]], param_name := "lr", save_history := false,
    event_index := 0, start_value := 1, end_value := 0,
    cycle_size := 2, cycle_mult := 2, cycle := 0 }

set_option maxRecDepth 4000 in
/-- Claim C6: `cycle_size` never decreases across an invocation when
`cycle_mult ≥ 1`; `cycle_mult` itself never changes; the invariant
`cycle_size = s0 * cycle_mult ^ cycle` is preserved by every invocation, so
with `cycle_mult = 2` the size after the `k`-th completed cycle is
`s0 * 2 ^ k`; concretely, 15 invocations of the `cycle_size = 2`,
`cycle_mult = 2` example complete 3 cycles and reach
`cycle_size = 16 = 2 * 2 ^ 3` (2 → 4 → 8 → 16). -/
theorem cyclicalScheduler_cycle_size_spec (gp : CyclicalScheduler α → α)
    (s : CyclicalScheduler α) (eng : EngineState α) (s0 : ℕ) :
    (1 ≤ s.cycle_mult → s.cycle_size ≤ (CyclicalScheduler.call gp s eng).1.cycle_size) ∧
    (CyclicalScheduler.call gp s eng).1.cycle_mult = s.cycle_mult ∧
    (s.cycle_size = s0 * s.cycle_mult ^ s.cycle →
      (CyclicalScheduler.call gp s eng).1.cycle_size
        = s0 * s.cycle_mult ^ (CyclicalScheduler.call gp s eng).1.cycle) ∧
    ((CyclicalScheduler.run LinearScheduler.get_param doublingExample ⟨none⟩ 15).1.cycle = 3 ∧
      (CyclicalScheduler.run LinearScheduler.get_param doublingExample ⟨none⟩ 15).1.cycle_size = 16 ∧
      doublingExample.cycle_size = 2 ∧ 16 = 2 * 2 ^ 3) := by
  rw [CyclicalScheduler.call_fst]
  refine ⟨?_, ?_, ?_, ?_⟩
  · intro hmult
    unfold CyclicalScheduler.boundaryAdjust
    by_cases hb : s.event_index ≠ 0 ∧ s.event_index % s.cycle_size = 0
    · rw [if_pos hb]
      calc s.cycle_size = s.cycle_size * 1 := (mul_one _).symm
        _ ≤ s.cycle_size * s.cycle_mult := Nat.mul_le_mul_left _ hmult
    · rw [if_neg hb]
  · unfold CyclicalScheduler.boundaryAdjust
    by_cases hb : s.event_index ≠ 0 ∧ s.event_index % s.cycle_size = 0
    · rw [if_pos hb]
    · rw [if_neg hb]
  · intro hinv
    unfold CyclicalScheduler.boundaryAdjust
    by_cases hb : s.event_index ≠ 0 ∧ s.event_index % s.cycle_size = 0
    · rw [if_pos hb]
      simp only [hinv]
      ring
    · rw [if_neg hb]
      exact hinv
  · have hrun : (CyclicalScheduler.run LinearScheduler.get_param doublingExample ⟨none⟩ 15).1.cycle = 3 ∧
        (CyclicalScheduler.run LinearScheduler.get_param doublingExample ⟨none⟩ 15).1.cycle_size = 16 := by
      norm_num [doublingExample, CyclicalScheduler.run, CyclicalScheduler.call,
        CyclicalScheduler.boundaryAdjust, ParamScheduler.call, LinearScheduler.get_param,
        cycleProgress, ParamGroup.set, ParamGroup.get, abs_of_nonneg, abs_of_nonpos]
    exact ⟨hrun.1, hrun.2, rfl, by norm_num⟩

/-- Claim C6, witness: the doubling example discharges both hypotheses. -/
theorem cyclicalScheduler_cycle_size_spec_witness :
    doublingExample.cycle_size ≤
      (CyclicalScheduler.call LinearScheduler.get_param doublingExample ⟨none⟩).1.cycle_size ∧
    (CyclicalScheduler.call LinearScheduler.get_param doublingExample ⟨none⟩).1.cycle_size
      = 2 * 2 ^ (CyclicalScheduler.call LinearScheduler.get_param doublingExample ⟨none⟩).1.cycle := by
  have h := cyclicalScheduler_cycle_size_spec LinearScheduler.get_param doublingExample ⟨none⟩ 2
  exact ⟨h.1 (by norm_num [doublingExample]), h.2.2.1 (by norm_num [doublingExample])⟩

/-! ### Determinism (claim C9) and the waveform formulas (claims C4, C7) -/

/-- The scheduler-state component of an invocation does not depend on the
engine passed in; only the history side effect does. -/
theorem CyclicalScheduler.call_fst_engine_free (gp : CyclicalScheduler α → α)
    (s : CyclicalScheduler α) (eng eng' : EngineState α) :
    (CyclicalScheduler.call gp s eng).1 = (CyclicalScheduler.call gp s eng').1 := by
  rw [CyclicalScheduler.call_fst, CyclicalScheduler.call_fst]

/-- The sequence of values computed (and broadcast to the parameter groups)
by the first `n` invocations: invocation `k+1` evaluates `get_param` on the
boundary-adjusted state after `k` invocations. -/
def CyclicalScheduler.valuesList (gp : CyclicalScheduler α → α) (s : CyclicalScheduler α)
    (eng : EngineState α) : ℕ → List α
  | 0 => []
  | n + 1 =>
    CyclicalScheduler.valuesList gp s eng n
      ++ [gp ((CyclicalScheduler.run gp s eng n).1.boundaryAdjust)]

/-- Unfolding lemma for `CyclicalScheduler.run`. -/
theorem CyclicalScheduler.run_unfold (gp : CyclicalScheduler α → α) (s : CyclicalScheduler α)
    (eng : EngineState α) (n : ℕ) :
    CyclicalScheduler.run gp s eng (n + 1)
      = CyclicalScheduler.call gp (CyclicalScheduler.run gp s eng n).1
          (CyclicalScheduler.run gp s eng n).2 := rfl

/-- Claim C9: the value sequence and the scheduler state after any number of
invocations are a function of the constructed scheduler state and the
invocation count alone — the engine, the only other input in scope, cannot
influence them.  Hence two freshly constructed schedulers with identical
configuration (the same constructed state) produce identical value sequences
over any `n` invocations. -/
theorem cyclicalScheduler_deterministic (gp : CyclicalScheduler α → α)
    (s : CyclicalScheduler α) (eng₁ eng₂ : EngineState α) (n : ℕ) :
    (CyclicalScheduler.run gp s eng₁ n).1 = (CyclicalScheduler.run gp s eng₂ n).1 ∧
    CyclicalScheduler.valuesList gp s eng₁ n = CyclicalScheduler.valuesList gp s eng₂ n := by
  induction n with
  | zero => exact ⟨rfl, rfl⟩
  | succ n ih =>
    refine ⟨?_, ?_⟩
    · rw [CyclicalScheduler.run_unfold, CyclicalScheduler.run_unfold, ih.1]
      exact CyclicalScheduler.call_fst_engine_free gp _ _ _
    · show CyclicalScheduler.valuesList gp s eng₁ n ++ _
        = CyclicalScheduler.valuesList gp s eng₂ n ++ _
      rw [ih.1, ih.2]

/-- Modelled from the spec:
`Linear = end_value + (start_value - end_value) * |p - 0.5| * 2`. -/
def linearFormula [LinearOrderedField α] (start_value end_value p : α) : α :=
  end_value + (start_value - end_value) * |p - 1/2| * 2

/-- Modelled from the spec:
`CosineAnnealing = start_value + (end_value - start_value)/2 * (1 - cos(pi * p))`. -/
noncomputable def cosineAnnealingFormula (start_value end_value p : ℝ) : ℝ :=
  start_value + (end_value - start_value) / 2 * (1 - Real.cos (Real.pi * p))

/-- Modelled from the spec:
`Cosine = start_value + (end_value - start_value)/2 * (1 - cos(2 * pi * p))`. -/
noncomputable def cosineFormula (start_value end_value p : ℝ) : ℝ :=
  start_value + (end_value - start_value) / 2 * (1 - Real.cos (2 * Real.pi * p))

/-- Claim C4: with `p = cycle_progress = event_index / cycle_size`, the three
`get_param` implementations compute exactly the three spec formulas. -/
theorem get_param_formulas [LinearOrderedField α] (s : CyclicalScheduler α)
    (t : CyclicalScheduler ℝ) :
    cycleProgress s = (s.event_index : α) / (s.cycle_size : α) ∧
    LinearScheduler.get_param s
      = linearFormula s.start_value s.end_value (cycleProgress s) ∧
    CosineAnnealingScheduler.get_param t
      = cosineAnnealingFormula t.start_value t.end_value (cycleProgress t) ∧
    CosineScheduler.get_param t
      = cosineFormula t.start_value t.end_value (cycleProgress t) :=
  ⟨rfl, rfl, rfl, rfl⟩

/-- On `p ∈ [0, 1]` the map `p ↦ cos (π p)` is strictly decreasing. -/
theorem cos_pi_mul_strictAnti {p q : ℝ} (hp : 0 ≤ p) (hpq : p < q) (hq : q ≤ 1) :
    Real.cos (Real.pi * q) < Real.cos (Real.pi * p) := by
  have hpi := Real.pi_pos
  apply Real.strictAntiOn_cos
  · exact ⟨by nlinarith, by nlinarith⟩
  · exact ⟨by nlinarith, by nlinarith⟩
  · nlinarith

/-- Claim C7: the CosineAnnealing value at `event_index = 0` is
`start_value`; within one cycle (`i < j < cycle_size`) the value moves
strictly toward `end_value` (strictly decreasing when
`start_value > end_value`, strictly increasing when
`start_value < end_value`); and on a cycle reset the boundary-adjusted state
evaluates to `start_value` again. -/
theorem cosineAnnealing_shape (t : CyclicalScheduler ℝ) (i j : ℕ) :
    (t.event_index = 0 → CosineAnnealingScheduler.get_param t = t.start_value) ∧
    (i < j → j < t.cycle_size →
      (t.end_value < t.start_value →
        CosineAnnealingScheduler.get_param { t with event_index := j }
          < CosineAnnealingScheduler.get_param { t with event_index := i }) ∧
      (t.start_value < t.end_value →
        CosineAnnealingScheduler.get_param { t with event_index := i }
          < CosineAnnealingScheduler.get_param { t with event_index := j })) ∧
    (t.event_index ≠ 0 → t.event_index % t.cycle_size = 0 →
      CosineAnnealingScheduler.get_param t.boundaryAdjust = t.start_value) := by
  refine ⟨?_, ?_, ?_⟩
  · intro h0
    simp [CosineAnnealingScheduler.get_param, cycleProgress, h0]
  · intro hij hj
    have hcs : 0 < t.cycle_size := lt_of_le_of_lt (Nat.zero_le _) hj
    have hcsR : (0:ℝ) < (t.cycle_size : ℝ) := by exact_mod_cast hcs
    have hp : (0:ℝ) ≤ (i : ℝ) / (t.cycle_size : ℝ) :=
      div_nonneg (Nat.cast_nonneg _) (Nat.cast_nonneg _)
    have hpq : (i : ℝ) / (t.cycle_size : ℝ) < (j : ℝ) / (t.cycle_size : ℝ) :=
      (div_lt_div_iff_of_pos_right hcsR).mpr (by exact_mod_cast hij)
    have hq1 : (j : ℝ) / (t.cycle_size : ℝ) ≤ 1 :=
      (div_le_one hcsR).mpr (by exact_mod_cast hj.le)
    have hcos := cos_pi_mul_strictAnti hp hpq hq1
    constructor
    · intro hlt
      simp only [CosineAnnealingScheduler.get_param, cycleProgress]
      have hneg : (t.end_value - t.start_value) / 2 < 0 := by linarith
      exact add_lt_add_left (mul_lt_mul_of_neg_left (by linarith) hneg) _
    · intro hlt
      simp only [CosineAnnealingScheduler.get_param, cycleProgress]
      have hpos : (0:ℝ) < (t.end_value - t.start_value) / 2 := by linarith
      exact add_lt_add_left (mul_lt_mul_of_pos_left (by linarith) hpos) _
  · intro hne hmod
    have hb : t.event_index ≠ 0 ∧ t.event_index % t.cycle_size = 0 := ⟨hne, hmod⟩
    unfold CyclicalScheduler.boundaryAdjust
    rw [if_pos hb]
    simp [CosineAnnealingScheduler.get_param, cycleProgress]

/-- A concrete CosineAnnealing configuration: start 1, end 0, cycle size 4. -/
def cosExample : CyclicalScheduler ℝ :=
  { optimizer := [[("lr", 1)]], param_name := "lr", save_history := false,
    event_index := 0, start_value := 1, end_value := 0,
    cycle_size := 4, cycle_mult := 1, cycle := 0 }

/-- Claim C7: the CosineAnnealing value at `event_index = 0` is
`start_value`; within one cycle (`i < j < cycle_size`) the value moves
strictly toward `end_value` (strictly decreasing when
`start_value > end_value`, strictly increasing when
`start_value < end_value`); and on a cycle reset the boundary-adjusted state
evaluates to `start_value` again. -/
theorem cosineAnnealing_shape_witness :
    CosineAnnealingScheduler.get_param cosExample = cosExample.start_value ∧
    CosineAnnealingScheduler.get_param { cosExample with event_index := 2 }
      < CosineAnnealingScheduler.get_param { cosExample with event_index := 1 } ∧
    CosineAnnealingScheduler.get_param
        ({ cosExample with event_index := 4 } : CyclicalScheduler ℝ).boundaryAdjust
      = cosExample.start_value := by
  have h := cosineAnnealing_shape cosExample 1 2
  have h2 := cosineAnnealing_shape ({ cosExample with event_index := 4 }) 1 2
  refine ⟨h.1 rfl, ?_, ?_⟩
  · exact (h.2.1 (by norm_num) (by norm_num [cosExample])).1 (by norm_num [cosExample])
  · exact h2.2.2 (by norm_num) (by norm_num [cosExample])

/-! ### The concatenation state machine (claims C3, C10) and exception behavior (claim C8) -/

/-- The keyword-argument dictionary `scheduler_kwds` of a `schedulers_list`
entry: the constructor arguments of a `CyclicalScheduler` subclass. -/
structure CyclicalKwds (α : Type) where
  optimizer : List (ParamGroup α)
  param_name : String
  save_history : Bool
  start_value : α
  end_value : α
  cycle_size : ℕ
  cycle_mult : ℕ
deriving DecidableEq, Repr

/-- `scheduler_cls(**kwds)`: every `CyclicalScheduler` subclass constructor
initialises `event_index = 0` and `cycle = 0`. -/
def CyclicalKwds.construct (k : CyclicalKwds α) : CyclicalScheduler α :=
  { optimizer := k.optimizer, param_name := k.param_name,
    save_history := k.save_history, event_index := 0,
    start_value := k.start_value, end_value := k.end_value,
    cycle_size := k.cycle_size, cycle_mult := k.cycle_mult, cycle := 0 }

/-- `ConcatScheduler` state.  `κ` is the type of the stored class references
`scheduler_cls`; a run interprets a reference through its `get_param`
dispatch argument.  An entry is
`(scheduler_cls, scheduler_kwds, event_duration)`, with `event_duration =
none` for Python `None` (run forever).  `scheduler = none` models the state
before the first switch, when the `_scheduler` attribute does not exist
yet. -/
structure ConcatScheduler (κ α : Type) extends ParamScheduler α where
  schedulers_list : List (κ × CyclicalKwds α × Option ℤ)
  schedulers_index : ℕ
  next_scheduler_switch : Option ℤ
  scheduler : Option (κ × CyclicalScheduler α)
deriving DecidableEq, Repr

/-- `ConcatScheduler.__init__`: countdown starts at 0 (already expired), no
active sub-scheduler yet. -/
def ConcatScheduler.init (optimizer : List (ParamGroup α)) (param_name : String)
    (schedulers_list : List (κ × CyclicalKwds α × Option ℤ)) (save_history : Bool) :
    ConcatScheduler κ α :=
  { optimizer := optimizer, param_name := param_name, save_history := save_history,
    event_index := 0, schedulers_list := schedulers_list, schedulers_index := 0,
    next_scheduler_switch := some 0, scheduler := none }

/-- The `kwds.copy()` followed by `kwds.update(dict(optimizer=...,
param_name=..., save_history=...))` of `_next_scheduler`: the shared values
override the entry's. -/
def ConcatScheduler.sharedKwds (s : ConcatScheduler κ α) (kw : CyclicalKwds α) :
    CyclicalKwds α :=
  { kw with optimizer := s.optimizer, param_name := s.param_name,
            save_history := s.save_history }

/-- `ConcatScheduler._next_scheduler`: read the current entry, construct the
next sub-scheduler from the overridden copy of its kwds, advance the index
modulo the list length.  `none` models the `IndexError` of an out-of-range
index (unreachable when the list is non-empty). -/
def ConcatScheduler.nextScheduler (s : ConcatScheduler κ α) :
    Option (ConcatScheduler κ α) :=
  match s.schedulers_list.get? s.schedulers_index with
  | none => none
  | some (cls, kwds, dur) =>
    some { s with next_scheduler_switch := dur,
                  scheduler := some (cls, (s.sharedKwds kwds).construct),
                  schedulers_index := (s.schedulers_index + 1) % s.schedulers_list.length }

/-- The countdown prologue of `ConcatScheduler.__call__`: when the countdown
is not `None`, decrement it and switch if it went negative. -/
def ConcatScheduler.preSwitch (s : ConcatScheduler κ α) : Option (ConcatScheduler κ α) :=
  match s.next_scheduler_switch with
  | none => some s
  | some c =>
    let s' := { s with next_scheduler_switch := some (c - 1) }
    if c - 1 < 0 then s'.nextScheduler else some s'

/-- `ConcatScheduler.__call__(engine)`: countdown prologue, then delegate to
the active sub-scheduler.  `none` models the `AttributeError` of delegating
with no `_scheduler` set (unreachable from `init`, whose countdown 0 forces
a switch on the first invocation). -/
def ConcatScheduler.call (gp : κ → CyclicalScheduler α → α) (s : ConcatScheduler κ α)
    (eng : EngineState α) : Option (ConcatScheduler κ α × EngineState α) :=
  match s.preSwitch with
  | none => none
  | some s' =>
    match s'.scheduler with
    | none => none
    | some (cls, sub) =>
      let (sub', eng') := CyclicalScheduler.call (gp cls) sub eng
      some ({ s' with scheduler := some (cls, sub') }, eng')

/-- Iterated `ConcatScheduler.__call__`. -/
def ConcatScheduler.run (gp : κ → CyclicalScheduler α → α) (s : ConcatScheduler κ α)
    (eng : EngineState α) : ℕ → Option (ConcatScheduler κ α × EngineState α)
  | 0 => some (s, eng)
  | n + 1 =>
    match ConcatScheduler.run gp s eng n with
    | none => none
    | some (s', eng') => ConcatScheduler.call gp s' eng'

/-- The concat scheduler state after `n` invocations (discarding the
engine). -/
def ConcatScheduler.runState (gp : κ → CyclicalScheduler α → α) (s : ConcatScheduler κ α)
    (eng : EngineState α) (n : ℕ) : Option (ConcatScheduler κ α) :=
  (ConcatScheduler.run gp s eng n).map Prod.fst

/-- One invocation viewed on states only; by
`ConcatScheduler.callState_engine_free` the engine argument is irrelevant. -/
def ConcatScheduler.stepState (gp : κ → CyclicalScheduler α → α)
    (st : ConcatScheduler κ α) : Option (ConcatScheduler κ α) :=
  (ConcatScheduler.call gp st (EngineState.mk none)).map Prod.fst

/-- Branch lemma: the prologue failed (index error inside the switch). -/
theorem ConcatScheduler.call_eq_of_preSwitch_none (gp : κ → CyclicalScheduler α → α)
    (s : ConcatScheduler κ α) (eng : EngineState α) (hp : s.preSwitch = none) :
    ConcatScheduler.call gp s eng = none := by
  unfold ConcatScheduler.call
  rw [hp]

/-- Branch lemma: no active sub-scheduler after the prologue. -/
theorem ConcatScheduler.call_eq_of_scheduler_none (gp : κ → CyclicalScheduler α → α)
    (s s' : ConcatScheduler κ α) (eng : EngineState α) (hp : s.preSwitch = some s')
    (hs : s'.scheduler = none) :
    ConcatScheduler.call gp s eng = none := by
  unfold ConcatScheduler.call
  rw [hp]
  simp only [hs]

/-- Branch lemma: delegate to the active sub-scheduler. -/
theorem ConcatScheduler.call_eq_of_scheduler_some (gp : κ → CyclicalScheduler α → α)
    (s s' : ConcatScheduler κ α) (cls : κ) (sub : CyclicalScheduler α) (eng : EngineState α)
    (hp : s.preSwitch = some s') (hs : s'.scheduler = some (cls, sub)) :
    ConcatScheduler.call gp s eng
      = some ({ s' with scheduler := some (cls, (CyclicalScheduler.call (gp cls) sub eng).1) },
              (CyclicalScheduler.call (gp cls) sub eng).2) := by
  unfold ConcatScheduler.call
  rw [hp]
  simp only [hs]

/-- The concat state after an invocation does not depend on the engine. -/
theorem ConcatScheduler.callState_engine_free (gp : κ → CyclicalScheduler α → α)
    (s : ConcatScheduler κ α) (eng eng' : EngineState α) :
    (ConcatScheduler.call gp s eng).map Prod.fst
      = (ConcatScheduler.call gp s eng').map Prod.fst := by
  cases hp : s.preSwitch with
  | none =>
    rw [ConcatScheduler.call_eq_of_preSwitch_none gp s eng hp,
        ConcatScheduler.call_eq_of_preSwitch_none gp s eng' hp]
  | some s2 =>
    cases hs : s2.scheduler with
    | none =>
      rw [ConcatScheduler.call_eq_of_scheduler_none gp s s2 eng hp hs,
          ConcatScheduler.call_eq_of_scheduler_none gp s s2 eng' hp hs]
    | some p =>
      rw [ConcatScheduler.call_eq_of_scheduler_some gp s s2 p.1 p.2 eng hp (by rw [hs]),
          ConcatScheduler.call_eq_of_scheduler_some gp s s2 p.1 p.2 eng' hp (by rw [hs])]
      simp [CyclicalScheduler.call_fst_engine_free (gp p.1) p.2 eng eng']

/-- Unfolding lemma for `ConcatScheduler.run`. -/
theorem ConcatScheduler.run_succ (gp : κ → CyclicalScheduler α → α)
    (s : ConcatScheduler κ α) (eng : EngineState α) (n : ℕ) :
    ConcatScheduler.run gp s eng (n + 1)
      = match ConcatScheduler.run gp s eng n with
        | none => none
        | some (s', eng') => ConcatScheduler.call gp s' eng' := rfl

/-- The state trace is generated by iterating `stepState`. -/
theorem ConcatScheduler.runState_succ (gp : κ → CyclicalScheduler α → α)
    (s : ConcatScheduler κ α) (eng : EngineState α) (n : ℕ) :
    ConcatScheduler.runState gp s eng (n + 1)
      = (ConcatScheduler.runState gp s eng n).bind (ConcatScheduler.stepState gp) := by
  unfold ConcatScheduler.runState
  rw [ConcatScheduler.run_succ]
  cases hr : ConcatScheduler.run gp s eng n with
  | none => rfl
  | some p =>
    obtain ⟨s', e'⟩ := p
    simp only [Option.map_some', Option.bind_some]
    exact ConcatScheduler.callState_engine_free gp s' e' ⟨none⟩

/-- Prologue with a countdown that stays non-negative: only the decrement. -/
theorem ConcatScheduler.preSwitch_no_switch (s : ConcatScheduler κ α) (c : ℤ)
    (hcd : s.next_scheduler_switch = some c) (hpos : 0 ≤ c - 1) :
    s.preSwitch = some { s with next_scheduler_switch := some (c - 1) } := by
  unfold ConcatScheduler.preSwitch
  rw [hcd]
  simp only [not_lt.mpr hpos, if_false]

/-- Prologue with an expiring countdown: decrement, then switch. -/
theorem ConcatScheduler.preSwitch_switch (s : ConcatScheduler κ α) (c : ℤ)
    (hcd : s.next_scheduler_switch = some c) (hneg : c - 1 < 0) :
    s.preSwitch
      = ({ s with next_scheduler_switch := some (c - 1) } : ConcatScheduler κ α).nextScheduler := by
  unfold ConcatScheduler.preSwitch
  rw [hcd]
  simp only [hneg, if_true]

/-- `_next_scheduler` on an in-range index. -/
theorem ConcatScheduler.nextScheduler_eq (s : ConcatScheduler κ α) (cls : κ)
    (kw : CyclicalKwds α) (dur : Option ℤ)
    (hget : s.schedulers_list.get? s.schedulers_index = some (cls, kw, dur)) :
    s.nextScheduler
      = some { s with next_scheduler_switch := dur,
                      scheduler := some (cls, (s.sharedKwds kw).construct),
                      schedulers_index := (s.schedulers_index + 1) % s.schedulers_list.length } := by
  unfold ConcatScheduler.nextScheduler
  rw [hget]

/-- One invocation without a switch: countdown decremented, active
sub-scheduler advanced by one call. -/
theorem ConcatScheduler.stepState_no_switch (gp : κ → CyclicalScheduler α → α)
    (st : ConcatScheduler κ α) (c : κ) (sub : CyclicalScheduler α) (cd : ℤ)
    (hs : st.scheduler = some (c, sub)) (hcd : st.next_scheduler_switch = some cd)
    (hpos : 0 ≤ cd - 1) :
    ConcatScheduler.stepState gp st
      = some { st with next_scheduler_switch := some (cd - 1),
                       scheduler := some (c, (CyclicalScheduler.call (gp c) sub ⟨none⟩).1) } := by
  unfold ConcatScheduler.stepState
  rw [ConcatScheduler.call_eq_of_scheduler_some gp st
    { st with next_scheduler_switch := some (cd - 1) } c sub ⟨none⟩
    (ConcatScheduler.preSwitch_no_switch st cd hcd hpos) (by exact hs)]
  rfl

/-- One invocation with a switch: countdown reloaded from the entry, index
advanced modulo the length, a freshly constructed sub-scheduler called
once. -/
theorem ConcatScheduler.stepState_switch (gp : κ → CyclicalScheduler α → α)
    (st : ConcatScheduler κ α) (cd : ℤ) (cls : κ) (kw : CyclicalKwds α) (dur : Option ℤ)
    (hcd : st.next_scheduler_switch = some cd) (hneg : cd - 1 < 0)
    (hget : st.schedulers_list.get? st.schedulers_index = some (cls, kw, dur)) :
    ConcatScheduler.stepState gp st
      = some { st with
          next_scheduler_switch := dur,
          schedulers_index := (st.schedulers_index + 1) % st.schedulers_list.length,
          scheduler := some (cls,
            (CyclicalScheduler.call (gp cls) (st.sharedKwds kw).construct ⟨none⟩).1) } := by
  unfold ConcatScheduler.stepState
  have hpre : st.preSwitch
      = some { st with
          next_scheduler_switch := dur,
          scheduler := some (cls, (st.sharedKwds kw).construct),
          schedulers_index := (st.schedulers_index + 1) % st.schedulers_list.length } := by
    rw [ConcatScheduler.preSwitch_switch st cd hcd hneg,
        ConcatScheduler.nextScheduler_eq _ cls kw dur (by exact hget)]
    rfl
  rw [ConcatScheduler.call_eq_of_scheduler_some gp st _ cls ((st.sharedKwds kw).construct)
    ⟨none⟩ hpre rfl]
  rfl

/-- The sub-scheduler state after one more call, with the engine
irrelevant. -/
theorem CyclicalScheduler.run_succ_fst (gp : CyclicalScheduler α → α)
    (k0 : CyclicalScheduler α) (m : ℕ) :
    (CyclicalScheduler.run gp k0 ⟨none⟩ (m + 1)).1
      = (CyclicalScheduler.call gp (CyclicalScheduler.run gp k0 ⟨none⟩ m).1 ⟨none⟩).1 := by
  rw [CyclicalScheduler.run_unfold]
  exact CyclicalScheduler.call_fst_engine_free gp _ _ _

/-- Running `j ≤ countdown` further invocations never switches: the countdown
drops by `j` and the active sub-scheduler advances by `j` calls. -/
theorem ConcatScheduler.runState_no_switch_iter (gp : κ → CyclicalScheduler α → α)
    (s0 : ConcatScheduler κ α) (eng : EngineState α) (n : ℕ)
    (st : ConcatScheduler κ α) (c : κ) (k0 : CyclicalScheduler α) (cd : ℤ) (m : ℕ)
    (hrun : ConcatScheduler.runState gp s0 eng n = some st)
    (hs : st.scheduler = some (c, (CyclicalScheduler.run (gp c) k0 ⟨none⟩ m).1))
    (hcd : st.next_scheduler_switch = some cd) :
    ∀ j : ℕ, (j : ℤ) ≤ cd →
      ConcatScheduler.runState gp s0 eng (n + j)
        = some { st with next_scheduler_switch := some (cd - j),
                         scheduler := some (c,
                           (CyclicalScheduler.run (gp c) k0 ⟨none⟩ (m + j)).1) } := by
  intro j
  induction j with
  | zero =>
    intro _
    have heq : ({ st with
          next_scheduler_switch := some (cd - (0:ℕ)),
          scheduler := some (c, (CyclicalScheduler.run (gp c) k0 ⟨none⟩ (m + 0)).1) }
        : ConcatScheduler κ α) = st := by
      rw [Nat.add_zero, Nat.cast_zero, sub_zero, ← hs, ← hcd]
    rw [Nat.add_zero, hrun, heq]
  | succ j ih =>
    intro hj1
    have hj : (j : ℤ) ≤ cd := by push_cast at hj1 ⊢; omega
    have hstep := ih hj
    rw [← Nat.add_assoc, ConcatScheduler.runState_succ, hstep]
    rw [Option.some_bind]
    rw [ConcatScheduler.stepState_no_switch gp _ c
      ((CyclicalScheduler.run (gp c) k0 ⟨none⟩ (m + j)).1) (cd - j) rfl rfl
      (by push_cast at hj1 ⊢; omega)]
    have harith : (cd - (j:ℤ)) - 1 = cd - ((j:ℕ)+1:ℕ) := by push_cast; ring
    rw [harith]
    have hrunfst : (CyclicalScheduler.call (gp c)
          (CyclicalScheduler.run (gp c) k0 ⟨none⟩ (m + j)).1 ⟨none⟩).1
        = (CyclicalScheduler.run (gp c) k0 ⟨none⟩ (m + (j + 1))).1 := by
      rw [← Nat.add_assoc]
      exact (CyclicalScheduler.run_succ_fst (gp c) k0 (m + j)).symm
    rw [hrunfst]

/-- Claim C3: for a two-entry `ConcatScheduler` with finite durations `d1`
and `d2`, the first invocation switches in entry A; invocations `0..d1` run
sub-schedule A (constructed fresh, called `k+1` times after invocation `k`);
invocations `d1+1..d1+d2+1` run sub-schedule B; and after invocation
`d1+d2+2` the state equals the state after invocation 0 — a freshly
constructed A (whose `event_index` starts at 0) called once — so the
sequence loops with period `d1+d2+2`. -/
theorem concatScheduler_two_entry_phases
    (gp : κ → CyclicalScheduler α → α) (opt : List (ParamGroup α)) (name : String)
    (sh : Bool) (a b : κ) (ka kb : CyclicalKwds α) (d1 d2 : ℕ) (eng : EngineState α) :
    (∀ k : ℕ, k ≤ d1 →
      ConcatScheduler.runState gp
          (ConcatScheduler.init opt name [(a, ka, some (d1:ℤ)), (b, kb, some (d2:ℤ))] sh)
          eng (k + 1)
        = some { ConcatScheduler.init opt name
                    [(a, ka, some (d1:ℤ)), (b, kb, some (d2:ℤ))] sh with
            schedulers_index := 1,
            next_scheduler_switch := some ((d1:ℤ) - (k:ℕ)),
            scheduler := some (a, (CyclicalScheduler.run (gp a)
              ((ConcatScheduler.init opt name
                  [(a, ka, some (d1:ℤ)), (b, kb, some (d2:ℤ))] sh).sharedKwds ka).construct
              ⟨none⟩ (k + 1)).1) }) ∧
    (∀ k : ℕ, d1 + 1 ≤ k → k ≤ d1 + d2 + 1 →
      ConcatScheduler.runState gp
          (ConcatScheduler.init opt name [(a, ka, some (d1:ℤ)), (b, kb, some (d2:ℤ))] sh)
          eng (k + 1)
        = some { ConcatScheduler.init opt name
                    [(a, ka, some (d1:ℤ)), (b, kb, some (d2:ℤ))] sh with
            schedulers_index := 0,
            next_scheduler_switch := some ((d2:ℤ) - ((k - (d1 + 1) : ℕ))),
            scheduler := some (b, (CyclicalScheduler.run (gp b)
              ((ConcatScheduler.init opt name
                  [(a, ka, some (d1:ℤ)), (b, kb, some (d2:ℤ))] sh).sharedKwds kb).construct
              ⟨none⟩ (k - d1)).1) }) ∧
    ConcatScheduler.runState gp
        (ConcatScheduler.init opt name [(a, ka, some (d1:ℤ)), (b, kb, some (d2:ℤ))] sh)
        eng (d1 + d2 + 3)
      = ConcatScheduler.runState gp
          (ConcatScheduler.init opt name [(a, ka, some (d1:ℤ)), (b, kb, some (d2:ℤ))] sh)
          eng 1 ∧
    ((ConcatScheduler.init opt name
        [(a, ka, some (d1:ℤ)), (b, kb, some (d2:ℤ))] sh).sharedKwds ka).construct.event_index
      = 0 := by
  set s0 : ConcatScheduler κ α :=
    ConcatScheduler.init opt name [(a, ka, some (d1:ℤ)), (b, kb, some (d2:ℤ))] sh with hs0
  have h1 : ConcatScheduler.runState gp s0 eng 1
      = some { s0 with
          schedulers_index := 1,
          next_scheduler_switch := some (d1:ℤ),
          scheduler := some (a, (CyclicalScheduler.run (gp a)
            (s0.sharedKwds ka).construct ⟨none⟩ 1).1) } := by
    rw [show (1:ℕ) = 0 + 1 from rfl, ConcatScheduler.runState_succ,
      show ConcatScheduler.runState gp s0 eng 0 = some s0 from rfl, Option.some_bind,
      ConcatScheduler.stepState_switch gp s0 0 a ka (some (d1:ℤ)) rfl (by norm_num) (by rfl)]
    simp [hs0, ConcatScheduler.init, List.length_cons]
    rfl
  have phaseA := ConcatScheduler.runState_no_switch_iter gp s0 eng 1 _ a
    ((s0.sharedKwds ka).construct) (d1:ℤ) 1 h1 rfl rfl
  refine ⟨?_, ?_, ?_, rfl⟩
  · intro k hk
    have hA := phaseA k (by exact_mod_cast hk)
    rw [Nat.add_comm 1 k] at hA
    exact hA
  · intro k hk1 hk2
    have hAend := phaseA d1 (le_refl _)
    have h2 : ConcatScheduler.runState gp s0 eng (d1 + 2)
        = some { s0 with
            schedulers_index := 0,
            next_scheduler_switch := some (d2:ℤ),
            scheduler := some (b, (CyclicalScheduler.run (gp b)
              (s0.sharedKwds kb).construct ⟨none⟩ 1).1) } := by
      rw [show d1 + 2 = (1 + d1) + 1 by omega, ConcatScheduler.runState_succ, hAend,
        Option.some_bind,
        ConcatScheduler.stepState_switch gp _ ((d1:ℤ) - (d1:ℕ)) b kb (some (d2:ℤ)) rfl
          (by simp) (by rfl)]
      simp [hs0, ConcatScheduler.init, List.length_cons]
      rfl
    have phaseB := ConcatScheduler.runState_no_switch_iter gp s0 eng (d1 + 2) _ b
      ((s0.sharedKwds kb).construct) (d2:ℤ) 1 h2 rfl rfl
    have hB := phaseB (k - (d1 + 1)) (by omega)
    rw [show (d1 + 2) + (k - (d1 + 1)) = k + 1 by omega,
        show 1 + (k - (d1 + 1)) = k - d1 by omega] at hB
    exact hB
  · have hAend := phaseA d1 (le_refl _)
    have h2 : ConcatScheduler.runState gp s0 eng (d1 + 2)
        = some { s0 with
            schedulers_index := 0,
            next_scheduler_switch := some (d2:ℤ),
            scheduler := some (b, (CyclicalScheduler.run (gp b)
              (s0.sharedKwds kb).construct ⟨none⟩ 1).1) } := by
      rw [show d1 + 2 = (1 + d1) + 1 by omega, ConcatScheduler.runState_succ, hAend,
        Option.some_bind,
        ConcatScheduler.stepState_switch gp _ ((d1:ℤ) - (d1:ℕ)) b kb (some (d2:ℤ)) rfl
          (by simp) (by rfl)]
      simp [hs0, ConcatScheduler.init, List.length_cons]
      rfl
    have phaseB := ConcatScheduler.runState_no_switch_iter gp s0 eng (d1 + 2) _ b
      ((s0.sharedKwds kb).construct) (d2:ℤ) 1 h2 rfl rfl
    have hBend := phaseB d2 (le_refl _)
    rw [show (d1 + 2) + d2 = d1 + d2 + 2 by omega] at hBend
    rw [show d1 + d2 + 3 = (d1 + d2 + 2) + 1 by omega, ConcatScheduler.runState_succ, hBend,
      Option.some_bind,
      ConcatScheduler.stepState_switch gp _ ((d2:ℤ) - (d2:ℕ)) a ka (some (d1:ℤ)) rfl
        (by simp) (by rfl), h1]
    simp [hs0, ConcatScheduler.init, List.length_cons]
    rfl

/-- Entry-A kwds for the concrete example (its own `param_name`,
`save_history` and `optimizer` differ from the concat's, to exercise the
override). -/
def concatKwA : CyclicalKwds ℚ :=
  { optimizer := [], param_name := "other", save_history := true,
    start_value := 1, end_value := 0, cycle_size := 4, cycle_mult := 1 }

/-- Entry-B kwds for the concrete example. -/
def concatKwB : CyclicalKwds ℚ :=
  { optimizer := [[("x", 5)]], param_name := "another", save_history := true,
    start_value := 0, end_value := 1, cycle_size := 2, cycle_mult := 2 }

/-- A two-entry concat example with durations 2 and 1. -/
def concatExample : ConcatScheduler Bool ℚ :=
  ConcatScheduler.init [[("lr", (1:ℚ))]] "lr"
    [(false, concatKwA, some ((2:ℕ):ℤ)), (true, concatKwB, some ((1:ℕ):ℤ))] false

/-- Claim C3: for a two-entry `ConcatScheduler` with finite durations `d1`
and `d2`, the first invocation switches in entry A; invocations `0..d1` run
sub-schedule A (constructed fresh, called `k+1` times after invocation `k`);
invocations `d1+1..d1+d2+1` run sub-schedule B; and after invocation
`d1+d2+2` the state equals the state after invocation 0 — a freshly
constructed A (whose `event_index` starts at 0) called once — so the
sequence loops with period `d1+d2+2`. -/
theorem concatScheduler_two_entry_phases_witness :
    (ConcatScheduler.runState (fun _ : Bool => LinearScheduler.get_param)
        concatExample ⟨none⟩ 2).isSome = true ∧
    ConcatScheduler.runState (fun _ : Bool => LinearScheduler.get_param)
        concatExample ⟨none⟩ 6
      = ConcatScheduler.runState (fun _ : Bool => LinearScheduler.get_param)
          concatExample ⟨none⟩ 1 := by
  have h := concatScheduler_two_entry_phases (fun _ : Bool => LinearScheduler.get_param)
    [[("lr", (1:ℚ))]] "lr" false false true concatKwA concatKwB 2 1 ⟨none⟩
  constructor
  · have h1 := h.1 1 (by norm_num)
    rw [show (2:ℕ) = 1 + 1 from rfl]
    rw [show concatExample = ConcatScheduler.init [[("lr", (1:ℚ))]] "lr"
      [(false, concatKwA, some ((2:ℕ):ℤ)), (true, concatKwB, some ((1:ℕ):ℤ))] false from rfl, h1]
    rfl
  · exact h.2.2.1


/-- A successful `_next_scheduler` leaves the entry list and shared
configuration unchanged and installs a sub-scheduler constructed from the
overridden copy of the current entry's kwds. -/
theorem ConcatScheduler.nextScheduler_facts (s s' : ConcatScheduler κ α)
    (h : s.nextScheduler = some s') :
    s'.schedulers_list = s.schedulers_list ∧ s'.param_name = s.param_name ∧
    s'.optimizer = s.optimizer ∧ s'.save_history = s.save_history ∧
    ∃ cls kwd dur, s.schedulers_list.get? s.schedulers_index = some (cls, kwd, dur) ∧
      s'.scheduler = some (cls, (s.sharedKwds kwd).construct) := by
  unfold ConcatScheduler.nextScheduler at h
  cases hget : s.schedulers_list.get? s.schedulers_index with
  | none => rw [hget] at h; exact absurd h (by simp)
  | some e =>
    obtain ⟨cls, kwd, dur⟩ := e
    rw [hget] at h
    have he := (Option.some_inj.mp h).symm
    subst he
    exact ⟨rfl, rfl, rfl, rfl, cls, kwd, dur, rfl, rfl⟩

/-- Claim C10: a constructed sub-scheduler takes the ConcatScheduler's own
optimizer, `param_name` and `save_history`, overriding the entry's values for
those keys; `_next_scheduler` and `__call__` never change the stored entry
list (the update happens on a copy); and "the active sub-scheduler targets
the concat's `param_name`" is an invariant of `__call__`. -/
theorem concatScheduler_shared_config (gp : κ → CyclicalScheduler α → α)
    (s : ConcatScheduler κ α) (eng : EngineState α) (kw : CyclicalKwds α) :
    ((s.sharedKwds kw).construct.param_name = s.param_name ∧
      (s.sharedKwds kw).construct.optimizer = s.optimizer ∧
      (s.sharedKwds kw).construct.save_history = s.save_history ∧
      (s.sharedKwds kw).construct.event_index = 0) ∧
    (∀ s', s.nextScheduler = some s' →
      s'.schedulers_list = s.schedulers_list ∧ s'.param_name = s.param_name ∧
      ∃ cls kwd dur, s.schedulers_list.get? s.schedulers_index = some (cls, kwd, dur) ∧
        s'.scheduler = some (cls, (s.sharedKwds kwd).construct)) ∧
    (∀ st' eng', ConcatScheduler.call gp s eng = some (st', eng') →
      st'.schedulers_list = s.schedulers_list ∧ st'.param_name = s.param_name ∧
      ((∀ cls sub, s.scheduler = some (cls, sub) → sub.param_name = s.param_name) →
        ∀ cls sub, st'.scheduler = some (cls, sub) → sub.param_name = st'.param_name)) := by
  refine ⟨⟨rfl, rfl, rfl, rfl⟩, ?_, ?_⟩
  · intro s' hnext
    obtain ⟨h1, h2, _, _, hex⟩ := ConcatScheduler.nextScheduler_facts s s' hnext
    exact ⟨h1, h2, hex⟩
  · intro st' eng' hcall
    cases hp : s.preSwitch with
    | none =>
      rw [ConcatScheduler.call_eq_of_preSwitch_none gp s eng hp] at hcall
      exact absurd hcall (by simp)
    | some s2 =>
      have hs2facts : s2.schedulers_list = s.schedulers_list ∧ s2.param_name = s.param_name ∧
          (s2.scheduler = s.scheduler ∨
            ∃ cls kwd, s2.scheduler = some (cls, (s.sharedKwds kwd).construct)) := by
        unfold ConcatScheduler.preSwitch at hp
        cases hcd : s.next_scheduler_switch with
        | none =>
          rw [hcd] at hp
          have he := (Option.some_inj.mp hp).symm
          subst he
          exact ⟨rfl, rfl, Or.inl rfl⟩
        | some c =>
          rw [hcd] at hp
          dsimp only at hp
          by_cases hneg : c - 1 < 0
          · rw [if_pos hneg] at hp
            obtain ⟨h1, h2, _, _, cls, kwd, dur, _, hsched⟩ :=
              ConcatScheduler.nextScheduler_facts _ s2 hp
            exact ⟨h1, h2, Or.inr ⟨cls, kwd, hsched⟩⟩
          · rw [if_neg hneg] at hp
            have he := (Option.some_inj.mp hp).symm
            subst he
            exact ⟨rfl, rfl, Or.inl rfl⟩
      cases hs2 : s2.scheduler with
      | none =>
        rw [ConcatScheduler.call_eq_of_scheduler_none gp s s2 eng hp hs2] at hcall
        exact absurd hcall (by simp)
      | some p =>
        obtain ⟨cls2, sub2⟩ := p
        rw [ConcatScheduler.call_eq_of_scheduler_some gp s s2 cls2 sub2 eng hp hs2] at hcall
        have hst' := (Option.some_inj.mp hcall)
        have hst'1 : st'
            = { s2 with
                scheduler := some (cls2, (CyclicalScheduler.call (gp cls2) sub2 eng).1) } :=
          (congrArg Prod.fst hst').symm
        obtain ⟨hl, hn, hsched⟩ := hs2facts
        subst hst'1
        refine ⟨hl, hn, ?_⟩
        intro hinv cls sub hsub
        have hsub' := Option.some_inj.mp hsub
        have hsubeq : sub = (CyclicalScheduler.call (gp cls2) sub2 eng).1 :=
          (congrArg Prod.snd hsub').symm
        have hsub2name : sub2.param_name = s.param_name := by
          rcases hsched with h | ⟨cls3, kwd3, h⟩
          · exact hinv cls2 sub2 (h ▸ hs2)
          · rw [hs2] at h
            have h2 := Option.some_inj.mp h
            have hs2eq : sub2 = (s.sharedKwds kwd3).construct := congrArg Prod.snd h2
            rw [hs2eq]
            rfl
        have hcallname : (CyclicalScheduler.call (gp cls2) sub2 eng).1.param_name
            = sub2.param_name := by
          rw [CyclicalScheduler.call_fst]
          unfold CyclicalScheduler.boundaryAdjust
          by_cases hb : sub2.event_index ≠ 0 ∧ sub2.event_index % sub2.cycle_size = 0
          · rw [if_pos hb]
          · rw [if_neg hb]
        rw [hsubeq, hcallname, hsub2name, hn]

/-- Exception-aware `ParamScheduler.__call__`: `get_param` is its first
statement, so an error escapes before any state change; the error side
carries the exception value together with the state as the exception leaves
the object (Python mutates `self` in place). -/
def ParamScheduler.callE (s : ParamScheduler α) (value : Except ε α) (eng : EngineState α) :
    Except (ε × ParamScheduler α × EngineState α) (ParamScheduler α × EngineState α) :=
  match value with
  | .error e => .error (e, s, eng)
  | .ok v => .ok (ParamScheduler.call s v eng)

/-- Exception-aware `CyclicalScheduler.__call__`: the cycle-boundary prologue
runs before `get_param` is evaluated, so an escaping error leaves the
boundary-adjusted state behind. -/
def CyclicalScheduler.callE (gp : CyclicalScheduler α → Except ε α) (s : CyclicalScheduler α)
    (eng : EngineState α) :
    Except (ε × CyclicalScheduler α × EngineState α) (CyclicalScheduler α × EngineState α) :=
  let s' := s.boundaryAdjust
  match ParamScheduler.callE s'.toParamScheduler (gp s') eng with
  | .error (e, base, engE) => .error (e, { s' with toParamScheduler := base }, engE)
  | .ok (base, eng') => .ok ({ s' with toParamScheduler := base }, eng')

/-- `ConcatScheduler.__call__(engine)`: countdown prologue, then delegate to
the active sub-scheduler.  `none` models the `AttributeError` of delegating
with no `_scheduler` set (unreachable from `init`, whose countdown 0 forces
a switch on the first invocation). -/
def ConcatScheduler.callE (gp : κ → CyclicalScheduler α → Except ε α)
    (s : ConcatScheduler κ α) (eng : EngineState α) :
    Option (Except (ε × ConcatScheduler κ α × EngineState α)
      (ConcatScheduler κ α × EngineState α)) :=
  match s.preSwitch with
  | none => none
  | some s' =>
    match s'.scheduler with
    | none => none
    | some (cls, sub) =>
      match CyclicalScheduler.callE (gp cls) sub eng with
      | .error (e, subE, engE) =>
        some (.error (e, { s' with scheduler := some (cls, subE) }, engE))
      | .ok (sub', eng') => some (.ok ({ s' with scheduler := some (cls, sub') }, eng'))

/-- A raising waveform propagates unchanged; the escaping state is the
boundary-adjusted one with nothing else executed. -/
theorem CyclicalScheduler.callE_error (gp : CyclicalScheduler α → Except ε α)
    (s : CyclicalScheduler α) (eng : EngineState α) (e : ε)
    (he : gp s.boundaryAdjust = .error e) :
    CyclicalScheduler.callE gp s eng = .error (e, s.boundaryAdjust, eng) := by
  unfold CyclicalScheduler.callE ParamScheduler.callE
  dsimp only
  rw [he]

/-- A non-raising waveform gives exactly the plain `__call__`. -/
theorem CyclicalScheduler.callE_ok (gp : CyclicalScheduler α → Except ε α)
    (s : CyclicalScheduler α) (eng : EngineState α) (x : α)
    (hx : gp s.boundaryAdjust = .ok x) :
    CyclicalScheduler.callE gp s eng
      = .ok (CyclicalScheduler.call (fun _ => x) s eng) := by
  unfold CyclicalScheduler.callE ParamScheduler.callE CyclicalScheduler.call
    ParamScheduler.call
  dsimp only
  rw [hx]

/-- Claim C8, amended: each apply raises exactly when the configured
`get_param` raises, and the exception value propagates unchanged.  On a
raise the base `ParamScheduler`'s state and engine are untouched (no group
write, no history append, no `event_index` increment); a `CyclicalScheduler`
retains the cycle-boundary adjustment it made before evaluating the
waveform; a `ConcatScheduler` retains its countdown decrement and possible
switch. -/
theorem scheduler_raise_spec (s : ParamScheduler α) (v : Except ε α) (eng : EngineState α)
    (gp : CyclicalScheduler α → Except ε α) (t : CyclicalScheduler α)
    (gpc : κ → CyclicalScheduler α → Except ε α) (c : ConcatScheduler κ α) :
    (∀ e, v = .error e → ParamScheduler.callE s v eng = .error (e, s, eng)) ∧
    (∀ x, v = .ok x → ParamScheduler.callE s v eng = .ok (ParamScheduler.call s x eng)) ∧
    (∀ e, gp t.boundaryAdjust = .error e →
      CyclicalScheduler.callE gp t eng = .error (e, t.boundaryAdjust, eng)) ∧
    (∀ x, gp t.boundaryAdjust = .ok x →
      CyclicalScheduler.callE gp t eng = .ok (CyclicalScheduler.call (fun _ => x) t eng)) ∧
    (∀ s' cls sub e, c.preSwitch = some s' → s'.scheduler = some (cls, sub) →
      gpc cls sub.boundaryAdjust = .error e →
      ConcatScheduler.callE gpc c eng
        = some (.error (e, { s' with scheduler := some (cls, sub.boundaryAdjust) }, eng))) ∧
    (∀ s' cls sub x, c.preSwitch = some s' → s'.scheduler = some (cls, sub) →
      gpc cls sub.boundaryAdjust = .ok x →
      ∃ r, ConcatScheduler.callE gpc c eng = some (.ok r)) := by
  refine ⟨?_, ?_, ?_, ?_, ?_, ?_⟩
  · intro e he
    rw [he, ParamScheduler.callE]
  · intro x hx
    rw [hx, ParamScheduler.callE]
  · intro e he
    exact CyclicalScheduler.callE_error gp t eng e he
  · intro x hx
    exact CyclicalScheduler.callE_ok gp t eng x hx
  · intro s' cls sub e hp hs he
    unfold ConcatScheduler.callE
    rw [hp]
    simp only [hs]
    rw [CyclicalScheduler.callE_error (gpc cls) sub eng e he]
  · intro s' cls sub x hp hs hx
    have hcall : ConcatScheduler.callE gpc c eng
        = some (.ok
            ({ s' with
                scheduler := some (cls, (CyclicalScheduler.call (fun _ => x) sub eng).1) },
              (CyclicalScheduler.call (fun _ => x) sub eng).2)) := by
      unfold ConcatScheduler.callE
      rw [hp]
      simp only [hs]
      rw [CyclicalScheduler.callE_ok (gpc cls) sub eng x hx]
    exact ⟨_, hcall⟩

/-- A sub-scheduler for the exception example. -/
def c8Sub : CyclicalScheduler ℚ :=
  { optimizer := [[("lr", 1)]], param_name := "lr", save_history := false,
    event_index := 0, start_value := 1, end_value := 0,
    cycle_size := 4, cycle_mult := 1, cycle := 0 }

/-- A concat state mid-run: countdown 3, active sub-scheduler installed. -/
def c8Example : ConcatScheduler Unit ℚ :=
  { optimizer := [[("lr", 1)]], param_name := "lr", save_history := false, event_index := 0,
    schedulers_list := [], schedulers_index := 0,
    next_scheduler_switch := some 3, scheduler := some ((), c8Sub) }

/-- Claim C8, counterexample: with the active waveform raising, the
`ConcatScheduler`'s apply propagates the error but its state is NOT
unchanged — the countdown has been decremented from 3 to 2 before the
waveform ran. -/
theorem concat_raise_changes_state :
    (∃ stE engE, ConcatScheduler.callE (fun _ _ => Except.error ()) c8Example ⟨none⟩
        = some (.error ((), stE, engE)) ∧
      stE.next_scheduler_switch = some 2) ∧
    c8Example.next_scheduler_switch = some 3 ∧ (some (2:ℤ) ≠ some (3:ℤ)) := by
  refine ⟨⟨_, _, rfl, rfl⟩, rfl, by decide⟩

/-- Claim C8, amended: each apply raises exactly when the configured
`get_param` raises, and the exception value propagates unchanged.  On a
raise the base `ParamScheduler`'s state and engine are untouched (no group
write, no history append, no `event_index` increment); a `CyclicalScheduler`
retains the cycle-boundary adjustment it made before evaluating the
waveform; a `ConcatScheduler` retains its countdown decrement and possible
switch. -/
theorem scheduler_raise_spec_witness :
    ParamScheduler.callE c8Sub.toParamScheduler (Except.error () : Except Unit ℚ) ⟨none⟩
      = .error ((), c8Sub.toParamScheduler, ⟨none⟩) ∧
    CyclicalScheduler.callE (fun _ => Except.error ()) c8Sub ⟨none⟩
      = .error ((), c8Sub.boundaryAdjust, ⟨none⟩) ∧
    ConcatScheduler.callE (fun _ _ => Except.error ()) c8Example ⟨none⟩
      = some (.error ((),
          { ({ c8Example with next_scheduler_switch := some 2 } : ConcatScheduler Unit ℚ) with
              scheduler := some ((), c8Sub.boundaryAdjust) }, ⟨none⟩)) := by
  have h := scheduler_raise_spec c8Sub.toParamScheduler (Except.error () : Except Unit ℚ)
    (⟨none⟩ : EngineState ℚ) (fun _ => Except.error ()) c8Sub
    (fun _ _ => Except.error ()) c8Example
  exact ⟨h.1 () rfl, h.2.2.1 () rfl, h.2.2.2.2.1 _ () c8Sub () (by rfl) (by rfl) rfl⟩

/-- Claim C10: a constructed sub-scheduler takes the ConcatScheduler's own
optimizer, `param_name` and `save_history`, overriding the entry's values for
those keys; `_next_scheduler` and `__call__` never change the stored entry
list (the update happens on a copy); and "the active sub-scheduler targets
the concat's `param_name`" is an invariant of `__call__`. -/
theorem concatScheduler_shared_config_witness :
    (∃ s', concatExample.nextScheduler = some s' ∧ s'.param_name = "lr" ∧
      ∃ cls kwd dur, concatExample.schedulers_list.get? concatExample.schedulers_index
          = some (cls, kwd, dur) ∧
        s'.scheduler = some (cls, (concatExample.sharedKwds kwd).construct)) ∧
    (∃ st' eng', ConcatScheduler.call (fun _ : Bool => fun _ => (0:ℚ)) concatExample ⟨none⟩
        = some (st', eng') ∧ st'.schedulers_list = concatExample.schedulers_list ∧
        st'.param_name = "lr") := by
  have h := concatScheduler_shared_config (fun _ : Bool => fun _ => (0:ℚ))
    concatExample ⟨none⟩ concatKwA
  constructor
  · obtain ⟨h1, h2, hex⟩ := h.2.1 _ rfl
    exact ⟨_, rfl, h2, hex⟩
  · obtain ⟨h1, h2, _⟩ := h.2.2 _ _ rfl
    exact ⟨_, _, rfl, h1, h2⟩
